import Mathlib

/-!
Shallow embedding of the bedrock runtime's persistence layer
(`src/persistence/state.rs`), tool contract (`src/tools/mod.rs`) and
session state (`src/kernel/session.rs`), together with proofs about the
specified behaviour of the key-value store, the event log, the vector
memory store, schema initialization, `ToolError` and `parse_args`.

The SQLite-backed `StateStore` is modelled as a pure record of its
tables; each store operation becomes a pure function on that record
mirroring the SQL statement it executes.  Rust strings are kept as
`String` where only equality matters, and as their UTF-8 byte lists
(`Bytes`) where `str::len` (a byte count) matters.  The `f32`/`f64`
arithmetic of the vector store is modelled over `Rat`; the external
`vector_distance_cos` SQL builtin (not part of this repository) is a
`dist` parameter of `search_memories`.
-/

namespace Bedrock

/-- A Rust string viewed as its UTF-8 bytes (`str::len` counts bytes). -/
abbrev Bytes := List UInt8

/-- A row of the `harness_kv` table (`key TEXT PRIMARY KEY, value, expires_at, updated_at`). -/
structure KVRow where
  key : String
  value : Bytes
  expires_at : Option String
  updated_at : String
deriving DecidableEq

/-- A row of the `events` table, as in the Rust `EventRow`. -/
structure EventRow where
  id : Nat
  session_id : String
  event_type : String
  payload : String
  created_at : String
deriving DecidableEq

/-- A stored row of the `memories` table (with its embedding vector). -/
structure MemRec where
  id : Nat
  session_id : String
  content : String
  embedding : List Rat
  metadata : String
  created_at : String
deriving DecidableEq

/-- A search result row, as in the Rust `MemoryRow` returned by `search_memories`. -/
structure MemoryRow where
  id : Nat
  session_id : String
  content : String
  metadata : String
  created_at : String
  score : Rat
deriving DecidableEq

/-- The database state behind a `StateStore`: one field per table, plus the
AUTOINCREMENT counters of the `events` and `memories` tables. -/
structure StoreState where
  schema_info : List (String × String)
  events : List EventRow
  harness_kv : List KVRow
  memories : List MemRec
  next_event_id : Nat
  next_memory_id : Nat
deriving DecidableEq

/-- A freshly created database (AUTOINCREMENT ids start at 1). -/
def emptyStore : StoreState :=
  { schema_info := [], events := [], harness_kv := [], memories := [],
    next_event_id := 1, next_memory_id := 1 }

/-- `MAX_KV_VALUE_SIZE` from `StateStore::kv_set` (1 MiB). -/
def MAX_KV_VALUE_SIZE : Nat := 1048576

/-- `StateStore::kv_set`: reject values over `MAX_KV_VALUE_SIZE` bytes with a
validation error, otherwise `INSERT OR REPLACE` the row (the conflicting row,
if any, is deleted and the fresh row has `expires_at = NULL` and
`updated_at = datetime('now')`, the `now` argument here).  The returned pair
is (call result, database state after the call). -/
def kv_set (st : StoreState) (key : String) (value : Bytes) (now : String) :
    Except String Unit × StoreState :=
  if value.length > MAX_KV_VALUE_SIZE then
    (Except.error ("KV value exceeds maximum size of " ++ toString MAX_KV_VALUE_SIZE ++
       " bytes (got " ++ toString value.length ++ ")"), st)
  else
    (Except.ok (),
     { st with harness_kv :=
         st.harness_kv.filter (fun r => !(r.key == key)) ++ [⟨key, value, none, now⟩] })

/-- `StateStore::kv_get`: `SELECT value FROM harness_kv WHERE key = ?1 AND
(expires_at IS NULL OR expires_at > datetime('now'))`; SQLite datetime strings
compare lexicographically, so `expires_at > now` is string `<` on `now`. -/
def kv_get (st : StoreState) (key : String) (now : String) : Option Bytes :=
  match st.harness_kv.find? (fun r => r.key == key) with
  | none => none
  | some r =>
    match r.expires_at with
    | none => some r.value
    | some exp => if now < exp then some r.value else none

/-- `StateStore::kv_delete`: `DELETE FROM harness_kv WHERE key = ?1`. -/
def kv_delete (st : StoreState) (key : String) : StoreState :=
  { st with harness_kv := st.harness_kv.filter (fun r => !(r.key == key)) }

/-- Searching for `p` among the elements on which `p` fails finds nothing. -/
theorem find?_filter_not {α : Type} (p : α → Bool) (l : List α) :
    (l.filter (fun a => !(p a))).find? p = none := by
  induction l with
  | nil => rfl
  | cons a l ih =>
    by_cases h : p a
    · simp [List.filter, h, ih]
    · simp [List.filter, h, List.find?, ih]

/-- C1: after a successful `kv_set k v`, `kv_get k` returns `some v` (at any
later time: the stored row never expires), and after `kv_delete k` on any
store, `kv_get k` returns `none`. -/
theorem kv_set_get_delete_roundtrip (st st' : StoreState) (k : String) (v : Bytes)
    (now now2 : String) (h : v.length ≤ MAX_KV_VALUE_SIZE) :
    kv_get (kv_set st k v now).2 k now2 = some v ∧
    kv_get (kv_delete st' k) k now2 = none := by
  constructor
  · have hle : ¬ v.length > MAX_KV_VALUE_SIZE := by omega
    simp only [kv_set, hle, if_false, kv_get]
    rw [List.find?_append, find?_filter_not]
    simp [List.find?]
  · simp only [kv_get, kv_delete]
    rw [find?_filter_not]

/-- C1 witness at a concrete store, key and value. -/
theorem kv_set_get_delete_roundtrip_witness :
    kv_get (kv_set emptyStore "budget" [49, 48] "t0").2 "budget" "t1" = some [49, 48] ∧
    kv_get (kv_delete emptyStore "budget") "budget" "t1" = none :=
  kv_set_get_delete_roundtrip emptyStore emptyStore "budget" [49, 48] "t0" "t1" (by decide)

/-- C2: `kv_set` succeeds on a value of exactly 1 MiB (1048576 bytes) and
fails with a validation error on any value of 1 MiB + 1 bytes or more. -/
theorem kv_set_size_boundary (st : StoreState) (k now : String) (v w : Bytes)
    (hv : v.length = 1048576) (hw : 1048577 ≤ w.length) :
    (kv_set st k v now).1 = Except.ok () ∧
    ∃ msg, (kv_set st k w now).1 = Except.error msg := by
  constructor
  · have hle : ¬ v.length > MAX_KV_VALUE_SIZE := by
      simp [MAX_KV_VALUE_SIZE]; omega
    simp [kv_set, hle]
  · have hgt : w.length > MAX_KV_VALUE_SIZE := by
      simp [MAX_KV_VALUE_SIZE]; omega
    have hset : kv_set st k w now =
        (Except.error ("KV value exceeds maximum size of " ++ toString MAX_KV_VALUE_SIZE ++
           " bytes (got " ++ toString w.length ++ ")"), st) := by
      unfold kv_set
      rw [if_pos hgt]
    exact ⟨_, by rw [hset]⟩

/-- C2 witness: a value of exactly 1048576 bytes is accepted, one of
1048577 bytes is rejected. -/
theorem kv_set_size_boundary_witness :
    (kv_set emptyStore "k" (List.replicate 1048576 0) "t").1 = Except.ok () ∧
    ∃ msg, (kv_set emptyStore "k" (List.replicate 1048577 0) "t").1 = Except.error msg :=
  kv_set_size_boundary emptyStore "k" "t" (List.replicate 1048576 0)
    (List.replicate 1048577 0) (List.length_replicate 1048576 0)
    (le_of_eq (List.length_replicate 1048577 0).symm)

/-- C10: a `kv_set` that fails the size check leaves the store untouched:
the state is returned unchanged (the `bail!` fires before any SQL runs), the
result is a validation error, and every `kv_get` answers as before. -/
theorem kv_set_oversize_no_change (st : StoreState) (k : String) (v : Bytes)
    (now : String) (h : MAX_KV_VALUE_SIZE < v.length) :
    (kv_set st k v now).2 = st ∧
    (∃ msg, (kv_set st k v now).1 = Except.error msg) ∧
    ∀ k' now', kv_get (kv_set st k v now).2 k' now' = kv_get st k' now' := by
  have hgt : v.length > MAX_KV_VALUE_SIZE := h
  have hset : kv_set st k v now =
      (Except.error ("KV value exceeds maximum size of " ++ toString MAX_KV_VALUE_SIZE ++
         " bytes (got " ++ toString v.length ++ ")"), st) := by
    unfold kv_set
    rw [if_pos hgt]
  exact ⟨by rw [hset], ⟨_, by rw [hset]⟩, fun k' now' => by rw [hset]⟩

/-- C10 witness at a concrete oversized value. -/
theorem kv_set_oversize_no_change_witness :
    (kv_set emptyStore "k" (List.replicate 1048577 0) "t").2 = emptyStore ∧
    (∃ msg, (kv_set emptyStore "k" (List.replicate 1048577 0) "t").1 = Except.error msg) ∧
    ∀ k' now', kv_get (kv_set emptyStore "k" (List.replicate 1048577 0) "t").2 k' now' =
      kv_get emptyStore k' now' :=
  kv_set_oversize_no_change emptyStore "k" (List.replicate 1048577 0) "t"
    (by rw [List.length_replicate]; decide)

/-- `SCHEMA_VERSION` from `state.rs` — bumped when the table structure changes. -/
def SCHEMA_VERSION : Nat := 1

/-- `INSERT OR REPLACE INTO schema_info (key, value) VALUES (k, v)`:
the conflicting row (same primary key) is deleted, the fresh row inserted. -/
def upsertInfo (l : List (String × String)) (k v : String) : List (String × String) :=
  l.filter (fun p => !(p.1 == k)) ++ [(k, v)]

/-- `StateStore::init_schema`: run the `CREATE TABLE IF NOT EXISTS` batch (a
no-op on the table contents modelled here) and unconditionally record the
current schema version with `INSERT OR REPLACE`.  Nothing ever reads the
previously recorded version. -/
def init_schema (st : StoreState) : Except String StoreState :=
  Except.ok
    { st with schema_info := upsertInfo st.schema_info "version" (toString SCHEMA_VERSION) }

/-- `StateStore::open` on an existing database file whose state is `st`.
Directory creation, `Builder::new_local` and `connect` are I/O steps that do
not inspect the schema; the only schema-related work is `init_schema`. -/
def openStore (st : StoreState) : Except String StoreState :=
  init_schema st

/-- C3: opening a database whose recorded schema version is `"999"`
(incompatible with the current version 1) succeeds anyway and silently
overwrites the recorded version with `"1"`; no incompatibility is detected,
contrary to the claim that `open` must fail. -/
theorem open_ignores_schema_version_mismatch :
    openStore { emptyStore with schema_info := [("version", "999")] } =
      Except.ok { emptyStore with schema_info := [("version", "1")] } := rfl

/-- `ToolError` from `src/tools/mod.rs`: exactly three variants. -/
inductive ToolError where
  | ExecutionError : String → ToolError
  | InvalidParams : String → ToolError
  | PermissionDenied : String → ToolError
deriving DecidableEq

/-- The six error kinds named by the spec's error taxonomy
(`InvalidParams`, `PermissionDenied`, `ExecutionError`, `Unknown`, `Timeout`,
`Cancelled`); written from the spec's words, to compare against the source's
`ToolError`. -/
inductive SpecToolErrorKind where
  | InvalidParams
  | PermissionDenied
  | ExecutionError
  | Unknown
  | Timeout
  | Cancelled
deriving DecidableEq

/-- The kind of a source `ToolError` value. -/
def ToolError.kind : ToolError → SpecToolErrorKind
  | .ExecutionError _ => .ExecutionError
  | .InvalidParams _ => .InvalidParams
  | .PermissionDenied _ => .PermissionDenied

/-- C4 counterexample: no `ToolError` value has kind `Timeout` — the source
type has no `Timeout` (nor `Unknown` nor `Cancelled`) variant, so the six-kind
claim fails. -/
theorem toolError_no_timeout_kind :
    ¬ ∃ e : ToolError, e.kind = SpecToolErrorKind.Timeout := by
  rintro ⟨e, h⟩
  cases e <;> simp [ToolError.kind] at h

/-- C4 (amended): `ToolError` distinguishes exactly the three kinds
`InvalidParams`, `PermissionDenied` and `ExecutionError`: each of the three is
inhabited, and every value has one of these three kinds. -/
theorem toolError_exactly_three_kinds :
    (∃ e : ToolError, e.kind = SpecToolErrorKind.InvalidParams) ∧
    (∃ e : ToolError, e.kind = SpecToolErrorKind.PermissionDenied) ∧
    (∃ e : ToolError, e.kind = SpecToolErrorKind.ExecutionError) ∧
    ∀ e : ToolError, e.kind = SpecToolErrorKind.InvalidParams ∨
      e.kind = SpecToolErrorKind.PermissionDenied ∨
      e.kind = SpecToolErrorKind.ExecutionError := by
  refine ⟨⟨ToolError.InvalidParams "", rfl⟩, ⟨ToolError.PermissionDenied "", rfl⟩,
    ⟨ToolError.ExecutionError "", rfl⟩, ?_⟩
  intro e
  cases e <;> simp [ToolError.kind]

/-- `parse_args` from `src/tools/mod.rs`:
`serde_json::from_value(args).map_err(|e| ToolError::InvalidParams(e.to_string()))`.
The serde deserializer for the target type `T` (external library code) is the
`fromValue` parameter: it yields the deserialized value or an error message. -/
def parse_args {J T : Type} (fromValue : J → Except String T) (args : J) :
    Except ToolError T :=
  match fromValue args with
  | Except.ok t => Except.ok t
  | Except.error e => Except.error (ToolError.InvalidParams e)

/-- C9: `parse_args` is total (a Lean function, so it cannot panic), returns
`ok t` exactly when deserialization does, maps a deserialization failure with
message `e` to `InvalidParams e`, and every error it returns is an
`InvalidParams` carrying the deserialization error message. -/
theorem parse_args_spec {J T : Type} (fromValue : J → Except String T) (args : J) :
    (∀ t, parse_args fromValue args = Except.ok t ↔ fromValue args = Except.ok t) ∧
    (∀ e, fromValue args = Except.error e →
       parse_args fromValue args = Except.error (ToolError.InvalidParams e)) ∧
    (∀ err, parse_args fromValue args = Except.error err →
       ∃ msg, err = ToolError.InvalidParams msg ∧ fromValue args = Except.error msg) := by
  refine ⟨?_, ?_, ?_⟩
  · intro t
    cases h : fromValue args <;> simp [parse_args, h]
  · intro e h
    simp [parse_args, h]
  · intro err h
    cases hf : fromValue args with
    | ok t => simp [parse_args, hf] at h
    | error e =>
      simp only [parse_args, hf, Except.error.injEq] at h
      exact ⟨e, h.symm, rfl⟩

/-- C9 witness: a failing deserializer produces exactly `InvalidParams` with
its message. -/
theorem parse_args_spec_witness :
    parse_args (fun _ : Unit => (Except.error "bad" : Except String Nat)) () =
      Except.error (ToolError.InvalidParams "bad") :=
  (parse_args_spec (fun _ : Unit => (Except.error "bad" : Except String Nat)) ()).2.1 "bad" rfl

/-- `SessionState` from `src/kernel/session.rs`, parametric in the message
type (`InferenceMessage`) and the MCP client handle type, which live outside
`src/`.  The tokio channel fields (`event_tx`, `event_rx`, `event_task`) are
runtime I/O handles, not part of the pure state modelled here. -/
structure SessionState (Msg Client : Type) where
  id : String
  history : List Msg
  queue : List String
  turn_index : Nat
  total_input_tokens : Nat
  total_output_tokens : Nat
  mcp_clients : List Client

/-- `SessionState::new`; `uuid` is the string produced by
`uuid::Uuid::new_v4().to_string()` (an RNG effect, passed in as a parameter). -/
def SessionState.new (Msg Client : Type) (uuid : String) : SessionState Msg Client :=
  { id := uuid, history := [], queue := [], turn_index := 0,
    total_input_tokens := 0, total_output_tokens := 0, mcp_clients := [] }

/-- C8: a fresh session starts with `turn_index = 0`, an empty history, an
empty prompt queue, zero token counters, and the freshly generated UUID as
its id. -/
theorem sessionState_new_fields (Msg Client : Type) (uuid : String) :
    (SessionState.new Msg Client uuid).turn_index = 0 ∧
    (SessionState.new Msg Client uuid).history = [] ∧
    (SessionState.new Msg Client uuid).queue = [] ∧
    (SessionState.new Msg Client uuid).total_input_tokens = 0 ∧
    (SessionState.new Msg Client uuid).total_output_tokens = 0 ∧
    (SessionState.new Msg Client uuid).id = uuid :=
  ⟨rfl, rfl, rfl, rfl, rfl, rfl⟩

/-- The comparison an `ORDER BY <key> ASC` clause sorts by. -/
def keyRel {α β : Type} [LinearOrder β] (key : α → β) : α → α → Prop :=
  fun a b => key a ≤ key b

instance {α β : Type} [LinearOrder β] (key : α → β) : DecidableRel (keyRel key) :=
  fun a b => inferInstanceAs (Decidable (key a ≤ key b))

instance {α β : Type} [LinearOrder β] (key : α → β) : IsTotal α (keyRel key) :=
  ⟨fun a b => le_total (key a) (key b)⟩

instance {α β : Type} [LinearOrder β] (key : α → β) : IsTrans α (keyRel key) :=
  ⟨fun _ _ _ h1 h2 => le_trans h1 h2⟩

/-- `ORDER BY <key> ASC` modelled as a stable sort of the scan order. -/
def sortByKey {α β : Type} [LinearOrder β] (key : α → β) (l : List α) : List α :=
  List.insertionSort (keyRel key) l

theorem mem_sortByKey {α β : Type} [LinearOrder β] (key : α → β) (l : List α) (a : α) :
    a ∈ sortByKey key l ↔ a ∈ l :=
  List.mem_insertionSort (keyRel key)

theorem sorted_sortByKey {α β : Type} [LinearOrder β] (key : α → β) (l : List α) :
    (sortByKey key l).Pairwise (keyRel key) :=
  List.sorted_insertionSort (keyRel key) l

theorem sortByKey_eq_of_sorted {α β : Type} [LinearOrder β] {key : α → β} {l : List α}
    (h : l.Pairwise (keyRel key)) : sortByKey key l = l :=
  List.Sorted.insertionSort_eq h

/-- An element strictly below every other element of `l` comes first when `l`
is sorted. -/
theorem sortByKey_cons_of_strict_min {α β : Type} [LinearOrder β] (key : α → β)
    (l : List α) (x : α) (hx : x ∈ l)
    (hmin : ∀ y ∈ l, y = x ∨ key x < key y) :
    ∃ rest, sortByKey key l = x :: rest := by
  cases hsort : sortByKey key l with
  | nil =>
    exfalso
    have hmem : x ∈ sortByKey key l := (mem_sortByKey key l x).2 hx
    rw [hsort] at hmem
    exact absurd hmem (List.not_mem_nil x)
  | cons z rest =>
    by_cases hz : z = x
    · subst hz
      exact ⟨rest, rfl⟩
    · exfalso
      have hzl : z ∈ l := by
        have hmem : z ∈ sortByKey key l := by
          rw [hsort]; exact List.mem_cons_self z rest
        exact (mem_sortByKey key l z).1 hmem
      have hlt : key x < key z := (hmin z hzl).resolve_left hz
      have hxs : x ∈ z :: rest := by
        rw [← hsort]; exact (mem_sortByKey key l x).2 hx
      rcases List.mem_cons.1 hxs with hxe | hxrest
      · exact hz hxe.symm
      · have hsorted : (z :: rest).Pairwise (keyRel key) := by
          rw [← hsort]; exact sorted_sortByKey key l
        have hzx : keyRel key z x := (List.pairwise_cons.1 hsorted).1 x hxrest
        exact absurd hlt (not_lt.2 hzx)

/-- `StateStore::insert_event`: `INSERT INTO events (session_id, event_type,
payload) VALUES (?1, ?2, ?3)` — the row gets the next AUTOINCREMENT id and
`created_at = datetime('now')` (the `now` argument); `payload` is the
serialized JSON string. -/
def insert_event (st : StoreState) (session_id event_type payload now : String) :
    StoreState :=
  { st with
    events := st.events ++ [⟨st.next_event_id, session_id, event_type, payload, now⟩],
    next_event_id := st.next_event_id + 1 }

/-- `StateStore::get_events`: `SELECT ... FROM events WHERE session_id = ?1
ORDER BY id`. -/
def get_events (st : StoreState) (session_id : String) : List EventRow :=
  sortByKey (fun r => r.id) (st.events.filter (fun r => r.session_id == session_id))

/-- The arguments of one `insert_event` call. -/
structure EventOp where
  session_id : String
  event_type : String
  payload : String
  now : String

/-- Run a sequence of `insert_event` calls against a store. -/
def runInsertsFrom (st : StoreState) : List EventOp → StoreState
  | [] => st
  | o :: os => runInsertsFrom (insert_event st o.session_id o.event_type o.payload o.now) os

/-- Run a sequence of `insert_event` calls against a fresh store. -/
def runInserts (ops : List EventOp) : StoreState :=
  runInsertsFrom emptyStore ops

/-- The event rows a sequence of `insert_event` calls appends, given the first
AUTOINCREMENT id `n`. -/
def buildRows (n : Nat) : List EventOp → List EventRow
  | [] => []
  | o :: os => ⟨n, o.session_id, o.event_type, o.payload, o.now⟩ :: buildRows (n + 1) os

theorem runInsertsFrom_events (ops : List EventOp) :
    ∀ st : StoreState,
      (runInsertsFrom st ops).events = st.events ++ buildRows st.next_event_id ops := by
  induction ops with
  | nil => intro st; simp [runInsertsFrom, buildRows]
  | cons o os ih =>
    intro st
    rw [runInsertsFrom, ih]
    simp [insert_event, buildRows]

theorem mem_buildRows_lower (n : Nat) (ops : List EventOp) :
    ∀ r ∈ buildRows n ops, n ≤ r.id := by
  induction ops generalizing n with
  | nil => intro r hr; exact absurd hr (List.not_mem_nil r)
  | cons o os ih =>
    intro r hr
    rcases List.mem_cons.1 hr with he | hm
    · rw [he]
    · exact le_trans (Nat.le_succ n) (ih (n + 1) r hm)

theorem buildRows_pairwise (n : Nat) (ops : List EventOp) :
    (buildRows n ops).Pairwise (fun a b => a.id < b.id) := by
  induction ops generalizing n with
  | nil => exact List.Pairwise.nil
  | cons o os ih =>
    refine List.pairwise_cons.2 ⟨?_, ih (n + 1)⟩
    intro r hr
    exact lt_of_lt_of_le (Nat.lt_succ_self n) (mem_buildRows_lower (n + 1) os r hr)

theorem buildRows_filter_map (s : String) (ops : List EventOp) :
    ∀ n : Nat,
      ((buildRows n ops).filter (fun r => r.session_id == s)).map
          (fun r => (r.session_id, r.event_type, r.payload, r.created_at)) =
        (ops.filter (fun o => o.session_id == s)).map
          (fun o => (o.session_id, o.event_type, o.payload, o.now)) := by
  induction ops with
  | nil => intro n; rfl
  | cons o os ih =>
    intro n
    by_cases h : o.session_id == s
    · simp only [buildRows, List.filter, h, List.map, ih (n + 1)]
    · simp only [buildRows, List.filter, h, ih (n + 1)]

/-- C7: for any sequence of `insert_event` calls against a fresh store,
`get_events s` returns exactly the calls made for session `s` (none of any
other session), in insertion order (the projection onto the inserted fields
commutes with filtering the call list), with strictly ascending row ids. -/
theorem get_events_exactly_inserted_in_order (ops : List EventOp) (s : String) :
    (get_events (runInserts ops) s).map
        (fun r => (r.session_id, r.event_type, r.payload, r.created_at)) =
      (ops.filter (fun o => o.session_id == s)).map
        (fun o => (o.session_id, o.event_type, o.payload, o.now)) ∧
    (get_events (runInserts ops) s).Pairwise (fun a b => a.id < b.id) := by
  have hev : (runInserts ops).events = buildRows 1 ops := by
    rw [runInserts, runInsertsFrom_events]
    rfl
  have hpw : ((runInserts ops).events.filter
      (fun r => r.session_id == s)).Pairwise (fun a b => a.id < b.id) := by
    rw [hev]
    exact List.Pairwise.sublist (List.filter_sublist _) (buildRows_pairwise 1 ops)
  have hfix : get_events (runInserts ops) s =
      (runInserts ops).events.filter (fun r => r.session_id == s) :=
    sortByKey_eq_of_sorted (hpw.imp (fun h => le_of_lt h))
  constructor
  · rw [hfix, hev, buildRows_filter_map s ops 1]
  · rw [hfix]
    exact hpw

/-- `StateStore::insert_memory`: append a row with the next AUTOINCREMENT id.
The f32 vector's round trip through little-endian bytes is lossless and is
elided; `metadata` is its serialized JSON string, `created_at` the `now`
argument. -/
def insert_memory (st : StoreState) (session_id content : String) (vector : List Rat)
    (metadata now : String) : StoreState :=
  { st with
    memories := st.memories ++
      [⟨st.next_memory_id, session_id, content, vector, metadata, now⟩],
    next_memory_id := st.next_memory_id + 1 }

/-- `StateStore::search_memories`:
`SELECT ..., vector_distance_cos(embedding, ?1) AS distance FROM memories
WHERE session_id = ?2 ORDER BY distance ASC LIMIT ?3`, and each returned row
carries `score = 1.0 - distance`.  The SQL builtin `vector_distance_cos`
(external library code, not part of this repository) is the `dist`
parameter. -/
def search_memories (dist : List Rat → List Rat → Rat) (st : StoreState)
    (session_id : String) (vector : List Rat) (limit : Nat) : List MemoryRow :=
  ((sortByKey (fun r => dist r.embedding vector)
      (st.memories.filter (fun r => r.session_id == session_id))).take limit).map
    (fun r => ⟨r.id, r.session_id, r.content, r.metadata, r.created_at,
               1 - dist r.embedding vector⟩)

/-- C5: `search_memories` returns at most `limit` rows; every returned row
comes from a memory of the queried session and carries
`score = 1 - dist(embedding, vector)`; and the rows are ordered by
non-increasing score (non-decreasing distance). -/
theorem search_memories_topk_spec (dist : List Rat → List Rat → Rat)
    (st : StoreState) (s : String) (v : List Rat) (k : Nat) :
    (search_memories dist st s v k).length ≤ k ∧
    (∀ row ∈ search_memories dist st s v k, row.session_id = s ∧
       ∃ mem ∈ st.memories, mem.session_id = s ∧ row.id = mem.id ∧
         row.content = mem.content ∧ row.score = 1 - dist mem.embedding v) ∧
    (search_memories dist st s v k).Pairwise (fun a b => b.score ≤ a.score) := by
  refine ⟨?_, ?_, ?_⟩
  · rw [search_memories, List.length_map, List.length_take]
    exact min_le_left _ _
  · intro row hrow
    rw [search_memories, List.mem_map] at hrow
    obtain ⟨r, hr, hrw⟩ := hrow
    have hrs : r ∈ sortByKey (fun r => dist r.embedding v)
        (st.memories.filter (fun r => r.session_id == s)) := List.take_subset _ _ hr
    have hrf : r ∈ st.memories.filter (fun r => r.session_id == s) :=
      (mem_sortByKey _ _ r).1 hrs
    have hrm : r ∈ st.memories := List.mem_of_mem_filter hrf
    have hsess : r.session_id = s := by
      have hb := List.of_mem_filter hrf
      exact eq_of_beq hb
    refine ⟨?_, r, hrm, hsess, ?_, ?_, ?_⟩ <;> rw [← hrw]
    exact hsess
  · rw [search_memories]
    rw [List.pairwise_map]
    have hs : (sortByKey (fun r => dist r.embedding v)
        (st.memories.filter (fun r => r.session_id == s))).Pairwise
        (keyRel (fun r => dist r.embedding v)) := sorted_sortByKey _ _
    have ht := List.Pairwise.sublist (List.take_sublist k _) hs
    exact ht.imp (fun h => sub_le_sub_left h 1)

/-- C5 witness: the top-k specification at a concrete query. -/
theorem search_memories_topk_spec_witness :
    (search_memories (fun _ _ => 0) emptyStore "s" [1] 2).length ≤ 2 ∧
    (∀ row ∈ search_memories (fun _ _ => 0) emptyStore "s" [1] 2, row.session_id = "s" ∧
       ∃ mem ∈ emptyStore.memories, mem.session_id = "s" ∧ row.id = mem.id ∧
         row.content = mem.content ∧ row.score = 1 - (fun _ _ => (0 : Rat)) mem.embedding [1]) ∧
    (search_memories (fun _ _ => 0) emptyStore "s" [1] 2).Pairwise
      (fun a b => b.score ≤ a.score) :=
  search_memories_topk_spec (fun _ _ => 0) emptyStore "s" [1] 2

/-- C6 (amended): after `insert_memory st s c v m`, a `search_memories` with
the same vector `v` and `k ≥ 1` returns the inserted row first, provided the
distance of `v` to itself is `0` (as for cosine distance of a non-zero vector)
and no other memory of the session has distance `0` to `v` (no tie); the
inserted row's score is `1`, at least the score of every other memory of the
session. -/
theorem insert_search_returns_inserted_no_tie (dist : List Rat → List Rat → Rat)
    (st : StoreState) (s c : String) (v : List Rat) (m now : String) (k : Nat)
    (hk : 1 ≤ k) (h0 : dist v v = 0)
    (hpos : ∀ r ∈ st.memories, r.session_id = s → 0 < dist r.embedding v) :
    ∃ row, (search_memories dist (insert_memory st s c v m now) s v k).head? = some row ∧
      row.id = st.next_memory_id ∧ row.content = c ∧ row.score = 1 ∧
      ∀ r ∈ st.memories, r.session_id = s → 1 - dist r.embedding v ≤ row.score := by
  have hfil : (insert_memory st s c v m now).memories.filter
      (fun r => r.session_id == s) =
      st.memories.filter (fun r => r.session_id == s) ++
        [⟨st.next_memory_id, s, c, v, m, now⟩] := by
    rw [insert_memory, List.filter_append]
    simp [List.filter]
  have hx : (⟨st.next_memory_id, s, c, v, m, now⟩ : MemRec) ∈
      (insert_memory st s c v m now).memories.filter (fun r => r.session_id == s) := by
    rw [hfil]
    exact List.mem_append_right _ (List.mem_singleton_self _)
  have hmin : ∀ y ∈ (insert_memory st s c v m now).memories.filter
      (fun r => r.session_id == s),
      y = (⟨st.next_memory_id, s, c, v, m, now⟩ : MemRec) ∨
        dist (⟨st.next_memory_id, s, c, v, m, now⟩ : MemRec).embedding v <
          dist y.embedding v := by
    intro y hy
    rw [hfil] at hy
    rcases List.mem_append.1 hy with hyo | hyn
    · right
      have hym : y ∈ st.memories := List.mem_of_mem_filter hyo
      have hyb := List.of_mem_filter hyo
      have hys : y.session_id = s := eq_of_beq hyb
      have := hpos y hym hys
      calc dist (⟨st.next_memory_id, s, c, v, m, now⟩ : MemRec).embedding v
          = dist v v := rfl
        _ = 0 := h0
        _ < dist y.embedding v := this
    · left
      exact List.mem_singleton.1 hyn
  obtain ⟨rest, hsort⟩ := sortByKey_cons_of_strict_min
    (fun r => dist r.embedding v) _ _ hx hmin
  obtain ⟨k', rfl⟩ : ∃ k', k = k' + 1 := ⟨k - 1, by omega⟩
  refine ⟨⟨st.next_memory_id, s, c, m, now, 1 - dist v v⟩, ?_, rfl, rfl, ?_, ?_⟩
  · rw [search_memories, hsort, List.take_succ_cons, List.map_cons, List.head?_cons]
  · show 1 - dist v v = 1
    rw [h0, sub_zero]
  · intro r hr hrs
    show 1 - dist r.embedding v ≤ 1 - dist v v
    rw [h0, sub_zero]
    exact sub_le_self 1 (le_of_lt (hpos r hr hrs))

/-- C6 witness: a fresh store, one insertion, one search with the same
vector. -/
theorem insert_search_returns_inserted_no_tie_witness :
    ∃ row, (search_memories (fun _ _ => 0) (insert_memory emptyStore "s" "c" [1] "m" "t")
        "s" [1] 1).head? = some row ∧
      row.id = emptyStore.next_memory_id ∧ row.content = "c" ∧ row.score = 1 ∧
      ∀ r ∈ emptyStore.memories, r.session_id = "s" →
        1 - (fun _ _ => (0 : Rat)) r.embedding [1] ≤ row.score :=
  insert_search_returns_inserted_no_tie (fun _ _ => 0) emptyStore "s" "c" [1] "m" "t" 1
    (le_refl 1) rfl (fun r hr => (List.not_mem_nil r hr).elim)

/-- A distance function that is `0` everywhere: the values the cosine distance
takes on a family of pairwise-parallel vectors, such as the duplicated vector
of the counterexample below. -/
def distZero : List Rat → List Rat → Rat := fun _ _ => 0

/-- C6 counterexample: insert two memories with the same vector `[1]` into the
same session, then search with that vector and `limit = 1`.  The second
insertion created row id 2, but the search returns only row id 1 (the earlier
duplicate, which ties at distance 0): the just-inserted row is not returned,
so the claim fails as stated. -/
theorem insert_search_tie_counterexample :
    (insert_memory emptyStore "s" "first" [1] "m1" "t1").next_memory_id = 2 ∧
    distZero [1] [1] = 0 ∧
    (search_memories distZero
        (insert_memory (insert_memory emptyStore "s" "first" [1] "m1" "t1")
          "s" "second" [1] "m2" "t2") "s" [1] 1).map (fun r => r.id) = [1] := by
  refine ⟨rfl, rfl, ?_⟩
  rfl

end Bedrock
